import Mathlib

/-!
# HospitalSystem: a shallow embedding of `main.cpp`

`Patient`, `PatientQueue` and `HospitalSystem` are embedded as structures with
explicit state passing.  A C++ `int` is an `Int`; a `std::queue<Patient>` is a
`List Patient` whose head is `front()` and whose tail end is where `emplace`
appends.  What a member function writes to `cout` is returned as a list of
strings, one per call, next to the returned value and the state it leaves.
The clock (`time(nullptr)`) and the results of reading `cin` are inputs.
-/

namespace Hospital

/-- Outcome of one member-function call: the returned value, the object state
it leaves behind and the text written to `cout`. -/
structure Step (σ α : Type) where
  ret : α
  state : σ
  out : List String
  deriving DecidableEq, Repr

/-- Class `Patient`: the three private fields. -/
structure Patient where
  name : String
  isUrgent : Bool
  arrivalTime : Int
  deriving DecidableEq, Repr

/-- Constructor `Patient(name, isUrgent)`; `now` is the value of `time(nullptr)`
at the moment of construction. -/
def Patient.new (name : String) (isUrgent : Bool) (now : Int) : Patient :=
  { name := name, isUrgent := isUrgent, arrivalTime := now }

/-- Class `PatientQueue`: the four private fields. -/
structure PatientQueue where
  regularQueue : List Patient
  urgentQueue : List Patient
  maxSize : Int
  specializationId : Int
  deriving DecidableEq, Repr

namespace PatientQueue

/-- Constructor `PatientQueue(specializationId, maxSize)`: both queues start empty. -/
def new (specializationId : Int) (maxSize : Int) : PatientQueue :=
  { regularQueue := [], urgentQueue := [], maxSize := maxSize,
    specializationId := specializationId }

/-- Member `getTotalSize`: `urgentQueue.size() + regularQueue.size()`, returned
as `int`.  The conversion is exact in every state reached from the
constructor, where the sum stays at or below `maxSize`. -/
def getTotalSize (q : PatientQueue) : Int :=
  ((q.urgentQueue.length + q.regularQueue.length : Nat) : Int)

/-- Member `getUrgentSize`. -/
def getUrgentSize (q : PatientQueue) : Int := (q.urgentQueue.length : Int)

/-- Member `getRegularSize`. -/
def getRegularSize (q : PatientQueue) : Int := (q.regularQueue.length : Int)

/-- Member `getSpecializationId`. -/
def getSpecializationId (q : PatientQueue) : Int := q.specializationId

/-- Member `isEmpty`: both queues are empty. -/
def isEmpty (q : PatientQueue) : Bool :=
  q.urgentQueue.isEmpty && q.regularQueue.isEmpty

/-- Member `addPatient(name, isUrgent)`; `now` is the clock value the new
`Patient` records.  A full queue prints the apology and returns `false`. -/
def addPatient (q : PatientQueue) (name : String) (isUrgent : Bool) (now : Int) :
    Step PatientQueue Bool :=
  if q.getTotalSize ≥ q.maxSize then
    { ret := false, state := q,
      out := ["Sorry, we can't add more patients for specialization "
                ++ toString q.specializationId ++ ".\n\n"] }
  else if isUrgent then
    { ret := true,
      state := { q with urgentQueue := q.urgentQueue ++ [Patient.new name true now] },
      out := [] }
  else
    { ret := true,
      state := { q with regularQueue := q.regularQueue ++ [Patient.new name false now] },
      out := [] }

/-- Member `nextPatient`: the front of the urgent queue if there is one, else
the front of the regular queue, else the thrown `runtime_error`. -/
def nextPatient (q : PatientQueue) : Step PatientQueue (Except String Patient) :=
  match q.urgentQueue with
  | patient :: rest =>
    { ret := .ok patient, state := { q with urgentQueue := rest }, out := [] }
  | [] =>
    match q.regularQueue with
    | patient :: rest =>
      { ret := .ok patient, state := { q with regularQueue := rest }, out := [] }
    | [] =>
      { ret := .error "No patients in queue", state := q, out := [] }

/-- One call made by a client of a `PatientQueue`. -/
inductive Call where
  | addPatient (name : String) (isUrgent : Bool) (now : Int)
  | nextPatient
  deriving DecidableEq, Repr

/-- State left by one client call, whether it succeeds, is rejected or throws. -/
def call (q : PatientQueue) : Call → PatientQueue
  | .addPatient name isUrgent now => (q.addPatient name isUrgent now).state
  | .nextPatient => q.nextPatient.state

/-- State left by a sequence of client calls, made in order. -/
def calls (q : PatientQueue) (cs : List Call) : PatientQueue :=
  cs.foldl call q

/-- A client admitting a sequence of (name, isUrgent, clock value) in order. -/
def addAll (q : PatientQueue) : List (String × Bool × Int) → PatientQueue
  | [] => q
  | (name, isUrgent, now) :: rest => addAll (q.addPatient name isUrgent now).state rest

/-- The `Patient` that admitting (name, isUrgent, clock value) constructs. -/
def admitted (a : String × Bool × Int) : Patient := Patient.new a.1 a.2.1 a.2.2

/-- Whether every admission of the sequence returns `true`. -/
def addAllAccepted (q : PatientQueue) : List (String × Bool × Int) → Bool
  | [] => true
  | (name, isUrgent, now) :: rest =>
    (q.addPatient name isUrgent now).ret
      && addAllAccepted (q.addPatient name isUrgent now).state rest

/-- A client calling `nextPatient` until it throws, making at most `fuel` calls:
the patients returned in order and the state at the failing call, or `none`
when `fuel` calls all returned a patient. -/
def nextUntilFail : Nat → PatientQueue → Option (List Patient × PatientQueue)
  | 0, _ => none
  | fuel + 1, q =>
    match q.nextPatient.ret with
    | .ok patient =>
      (nextUntilFail fuel q.nextPatient.state).map (fun r => (patient :: r.1, r.2))
    | .error _ => some ([], q.nextPatient.state)

/-- Comparator `sortByArrival` of `printQueue`. -/
def sortByArrival (a b : Patient) : Bool := decide (a.arrivalTime < b.arrivalTime)

/-- The copy loops of `printQueue`: while the temporary queue is not empty,
push its front to the back of the vector and pop it. -/
def copyToVector : List Patient → List Patient → List Patient
  | [], v => v
  | patient :: temp, v => copyToVector temp (v ++ [patient])

/-- Text produced by `left << setw(w) << s`: `s` padded with spaces on the right
up to `w` bytes. -/
def setwLeft (w : Nat) (s : String) : String :=
  s ++ String.mk (List.replicate (w - s.utf8ByteSize) ' ')

/-- Line printed for one patient of the urgent vector. -/
def urgentLine (fmt : Int → String) (patient : Patient) : String :=
  setwLeft 20 patient.name ++ " (Urgent, Arrived: " ++ fmt patient.arrivalTime ++ ")\n"

/-- Line printed for one patient of the regular vector. -/
def regularLine (fmt : Int → String) (patient : Patient) : String :=
  setwLeft 20 patient.name ++ " (Regular, Arrived: " ++ fmt patient.arrivalTime ++ ")\n"

/-- The two vectors `urgentPatients` and `regularPatients` of `printQueue` once
sorted.  `stdSort` is `std::sort` over a vector with a comparator; it comes
from the C++ library and is a parameter here. -/
def sortedVectors (stdSort : (Patient → Patient → Bool) → List Patient → List Patient)
    (q : PatientQueue) : List Patient × List Patient :=
  (stdSort sortByArrival (copyToVector q.urgentQueue []),
   stdSort sortByArrival (copyToVector q.regularQueue []))

/-- Member `printQueue` (const): the urgent vector is printed first, then the
regular one.  `fmt` is `getFormattedArrivalTime` (`strftime` of `localtime`),
a parameter like `stdSort`. -/
def printQueue (stdSort : (Patient → Patient → Bool) → List Patient → List Patient)
    (fmt : Int → String) (q : PatientQueue) : Step PatientQueue Unit :=
  { ret := (), state := q,
    out := (sortedVectors stdSort q).1.map (urgentLine fmt)
             ++ (sortedVectors stdSort q).2.map (regularLine fmt) }

/-- Contract of `std::sort` for the comparator of `printQueue`: the result is a
rearrangement of the input in which no element is strictly older than one
before it.  Elements that compare equal may come out in any order. -/
def StdSortContract
    (stdSort : (Patient → Patient → Bool) → List Patient → List Patient) : Prop :=
  ∀ v : List Patient, (stdSort sortByArrival v).Perm v ∧
    (stdSort sortByArrival v).Pairwise (fun a b => sortByArrival b a = false)

/-- An instance of `std::sort` used to exhibit the contract: insertion sort. -/
def insertionStdSort (comp : Patient → Patient → Bool) (v : List Patient) : List Patient :=
  v.insertionSort (fun a b => comp b a = false)

end PatientQueue

/-- Class `HospitalSystem`: the vector of queues (slot 0 is the dummy) and the
per-queue capacity. -/
structure HospitalSystem where
  specializations : List PatientQueue
  maxQueueSize : Int
  deriving DecidableEq, Repr

namespace HospitalSystem

/-- Private member `isValidSpecialization`:
`spec >= 1 && spec < static_cast<int>(specializations.size())`.  A vector
built by the constructor holds `numSpecializations + 1` queues, an `int`
value, and no member changes its size, so the cast is exact. -/
def isValidSpecialization (h : HospitalSystem) (spec : Int) : Bool :=
  decide (spec ≥ 1) && decide (spec < (h.specializations.length : Int))

/-- Ways in which the constructor ends without building a registry.
`signedOverflow`: `numSpecializations + 1` is not an `int` value, which is
undefined behaviour in `reserve(numSpecializations + 1)` and in the `++i` of
the loop.  `lengthError`: `numSpecializations + 1` is negative, so `reserve`
receives it converted to a huge `size_t` and throws `std::length_error`. -/
inductive ConstructError where
  | signedOverflow
  | lengthError
  deriving DecidableEq, Repr

/-- The `emplace_back` calls of the constructor: the dummy queue with id 0, then
one queue for each `int i` from 1 while `i <= numSpecializations`. -/
def newQueues (numSpecializations : Int) (maxQueueSize : Int) : List PatientQueue :=
  PatientQueue.new 0 maxQueueSize ::
    (List.range numSpecializations.toNat).map
      (fun (k : Nat) => PatientQueue.new ((k : Int) + 1) maxQueueSize)

/-- Constructor `HospitalSystem(numSpecializations, maxQueueSize)`, both
arguments being `int` values.  `specializations.reserve(numSpecializations + 1)`
comes first: the sum is computed in 32-bit `int` and then converted to
`size_t`.  When the sum is an `int` value that is not negative the vector is
filled by `newQueues`, whose counter `i` then stays at or below
`numSpecializations + 1`. -/
def new (numSpecializations : Int) (maxQueueSize : Int) :
    Except ConstructError HospitalSystem :=
  if numSpecializations + 1 ≥ 2 ^ 31 then .error .signedOverflow
  else if numSpecializations + 1 < 0 then .error .lengthError
  else .ok { specializations := newQueues numSpecializations maxQueueSize,
             maxQueueSize := maxQueueSize }

/-- Text of `specializations.size()-1`, computed in `size_t`. -/
def lastIdText (h : HospitalSystem) : String :=
  toString ((h.specializations.length + 2 ^ 64 - 1) % 2 ^ 64)

/-- The loop `while (!(cin >> specialization) || !isValidSpecialization(specialization))`
of `addPatient` and `getNextPatient`.  The list holds the results of the
successive extractions `cin >> specialization`, `none` for one that fails.
Returns the accepted number and the prompts printed on the way, or `none` when
the input ends before a valid number is read. -/
def readSpecialization (h : HospitalSystem) : List (Option Int) → Option (Int × List String)
  | [] => none
  | some specialization :: rest =>
    if h.isValidSpecialization specialization then some (specialization, [])
    else (readSpecialization h rest).map (fun r =>
      (r.1, ("Invalid input. Please enter a number between 1 and "
                ++ h.lastIdText ++ ": ") :: r.2))
  | none :: rest =>
    (readSpecialization h rest).map (fun r =>
      (r.1, ("Invalid input. Please enter a number between 1 and "
                ++ h.lastIdText ++ ": ") :: r.2))

/-- The loop `while (!(cin >> status) || (status != 0 && status != 1))` of
`addPatient`, over the results of the successive extractions. -/
def readStatus : List (Option Int) → Option (Int × List String)
  | [] => none
  | some status :: rest =>
    if status != 0 && status != 1 then
      (readStatus rest).map (fun r =>
        (r.1, "Invalid input. Please enter 0 for regular or 1 for urgent: " :: r.2))
    else some (status, [])
  | none :: rest =>
    (readStatus rest).map (fun r =>
      (r.1, "Invalid input. Please enter 0 for regular or 1 for urgent: " :: r.2))

/-- The C function `isspace` in the default locale. -/
def isspace (c : Char) : Bool :=
  c == ' ' || c == '\t' || c == '\n' || c == '\x0b' || c == '\x0c' || c == '\r'

/-- What the user types during one `addPatient`, and the clock. -/
structure AddInput where
  specializationReads : List (Option Int)
  name : String
  statusReads : List (Option Int)
  now : Int

/-- Member `addPatient`.  The result is `none` when the input ends inside one of
the two reading loops, or if the vector were indexed out of range. -/
def addPatient (h : HospitalSystem) (inp : AddInput) : Option (Step HospitalSystem Unit) :=
  match h.readSpecialization inp.specializationReads with
  | none => none
  | some (specialization, prompts) =>
    let asked := ["Enter specialization (1-" ++ h.lastIdText ++ "): "] ++ prompts
                   ++ ["Enter patient name: "]
    if inp.name.isEmpty || inp.name.data.all isspace then
      some { ret := (), state := h,
             out := asked ++ ["Invalid name. Please enter a valid name.\n\n"] }
    else
      match readStatus inp.statusReads with
      | none => none
      | some (status, prompts2) =>
        match h.specializations[specialization.toNat]? with
        | none => none
        | some q =>
          let r := q.addPatient inp.name (status == 1) inp.now
          some { ret := (),
                 state := { h with specializations :=
                              h.specializations.set specialization.toNat r.state },
                 out := asked ++ ["Enter status (0 for regular, 1 for urgent): "]
                          ++ prompts2 ++ r.out ++ ["Patient added successfully.\n\n"] }

/-- Member `getNextPatient`, with the `try`/`catch` around `nextPatient`.  `fmt`
is `getFormattedArrivalTime`. -/
def getNextPatient (fmt : Int → String) (h : HospitalSystem)
    (specializationReads : List (Option Int)) : Option (Step HospitalSystem Unit) :=
  match h.readSpecialization specializationReads with
  | none => none
  | some (specialization, prompts) =>
    let asked := ["Enter specialization (1-" ++ h.lastIdText ++ "): "] ++ prompts
    match h.specializations[specialization.toNat]? with
    | none => none
    | some q =>
      let r := q.nextPatient
      let h2 := { h with specializations :=
                    h.specializations.set specialization.toNat r.state }
      match r.ret with
      | .ok patient =>
        some { ret := (), state := h2,
               out := asked ++ ["\n" ++ patient.name ++ ", please go with the Doctor.\n",
                        "(" ++ (if patient.isUrgent then "Urgent" else "Regular")
                          ++ " case, arrived at " ++ fmt patient.arrivalTime ++ ")\n\n"] }
      | .error _ =>
        some { ret := (), state := h2,
               out := asked ++ ["No patients in specialization " ++ toString specialization
                        ++ " at the moment. Have rest, Doctor.\n\n"] }

/-!
### The comparison `total >= maxQueueSize * 0.8`

Both `int` operands are converted to `double` and the product is rounded to the
nearest binary64 value, ties to even (each operation evaluated in binary64,
as on x86-64 and AArch64).  Every value that occurs is zero or at
least 0.8 in magnitude and below 2^31, hence a normal binary64 number that is
a multiple of 2^-53; such a value `v` is represented by the integer `v * 2^53`.
The conversion of a 32-bit `int` to `double` is exact.
-/

/-- Number of low bits that rounding to a 53-bit significand drops from `n`:
the least `s` with `n / 2^s < 2^53`, searched for `fuel` steps. -/
def excessBits : Nat → Nat → Nat
  | 0, _ => 0
  | fuel + 1, n => if n < 2 ^ 53 then 0 else excessBits fuel (n / 2) + 1

/-- Round a natural number to 53 significant bits, to nearest, ties to even. -/
def roundNearestEven53 (n : Nat) : Nat :=
  let s := excessBits n n
  let q := n / 2 ^ s
  let r := n % 2 ^ s
  if 2 * r < 2 ^ s then q * 2 ^ s
  else if 2 * r > 2 ^ s then (q + 1) * 2 ^ s
  else if q % 2 = 0 then q * 2 ^ s
  else (q + 1) * 2 ^ s

/-- The literal `0.8` as a binary64 value, times 2^53: significand
`0x1999999999999A` with exponent -53. -/
def double08 : Nat := 0x1999999999999A

/-- The binary64 product `maxQueueSize * 0.8`, times 2^53. -/
def mul08 (maxQueueSize : Int) : Int :=
  if maxQueueSize < 0 then -((roundNearestEven53 (maxQueueSize.natAbs * double08) : Nat) : Int)
  else ((roundNearestEven53 (maxQueueSize.natAbs * double08) : Nat) : Int)

/-- The status column of one row of `printStatistics`. -/
def statusText (maxQueueSize total : Int) : String :=
  if total == 0 then "Empty"
  else if total ≥ maxQueueSize then "Full"
  else if total * 2 ^ 53 ≥ mul08 maxQueueSize then "Busy"
  else "Available"

/-- One iteration of the loop of `printStatistics`, for the queue at index `i`. -/
def statisticsRow (h : HospitalSystem) (i : Nat) (q : PatientQueue) : String :=
  let urgent := q.getUrgentSize
  let regular := q.getRegularSize
  let total := urgent + regular
  PatientQueue.setwLeft 15 (toString i) ++ PatientQueue.setwLeft 10 (toString urgent)
    ++ PatientQueue.setwLeft 10 (toString regular) ++ PatientQueue.setwLeft 10 (toString total)
    ++ statusText h.maxQueueSize total ++ "\n"

/-- Rows of `printStatistics` for the queues from index `i` on. -/
def statisticsRows (h : HospitalSystem) : Nat → List PatientQueue → List String
  | _, [] => []
  | i, q :: rest => statisticsRow h i q :: statisticsRows h (i + 1) rest

/-- Member `printStatistics` (const): the header, one row per queue from index 1
on, and the closing rule. -/
def printStatistics (h : HospitalSystem) : List String :=
  ["\nHospital Statistics:\n", "========================================\n",
   PatientQueue.setwLeft 15 "Specialization" ++ PatientQueue.setwLeft 10 "Urgent"
     ++ PatientQueue.setwLeft 10 "Regular" ++ PatientQueue.setwLeft 10 "Total" ++ "Status\n",
   "----------------------------------------\n"]
    ++ statisticsRows h 1 (h.specializations.drop 1)
    ++ ["========================================\n\n"]

/-- The status as the specification words it: Empty at total 0, else Full at
capacity or above, else Busy from 0.8 of the capacity, else Available. -/
def specStatus (capacity total : Int) : String :=
  if total = 0 then "Empty"
  else if total ≥ capacity then "Full"
  else if 5 * total ≥ 4 * capacity then "Busy"
  else "Available"

end HospitalSystem

end Hospital

namespace Hospital

namespace PatientQueue

/-! ### Lemmas on `addPatient` and `nextPatient` -/

theorem getTotalSize_eq (q : PatientQueue) :
    q.getTotalSize = q.getUrgentSize + q.getRegularSize := by
  simp [getTotalSize, getUrgentSize, getRegularSize]

theorem addPatient_of_full (q : PatientQueue) (name : String) (isUrgent : Bool) (now : Int)
    (h : q.getTotalSize ≥ q.maxSize) :
    q.addPatient name isUrgent now =
      { ret := false, state := q,
        out := ["Sorry, we can't add more patients for specialization "
                  ++ toString q.specializationId ++ ".\n\n"] } := by
  simp [addPatient, h]

theorem addPatient_of_room (q : PatientQueue) (name : String) (isUrgent : Bool) (now : Int)
    (h : q.getTotalSize < q.maxSize) :
    q.addPatient name isUrgent now =
      { ret := true,
        state :=
          if isUrgent then
            { q with urgentQueue := q.urgentQueue ++ [Patient.new name true now] }
          else
            { q with regularQueue := q.regularQueue ++ [Patient.new name false now] },
        out := [] } := by
  have h2 : ¬ q.getTotalSize ≥ q.maxSize := not_le.mpr h
  cases isUrgent <;> simp [addPatient, h2]

theorem addPatient_maxSize (q : PatientQueue) (name : String) (isUrgent : Bool) (now : Int) :
    (q.addPatient name isUrgent now).state.maxSize = q.maxSize := by
  unfold addPatient
  split
  · rfl
  · split <;> rfl

theorem addPatient_total_le (q : PatientQueue) (name : String) (isUrgent : Bool) (now : Int)
    (h : q.getTotalSize ≤ q.maxSize) :
    (q.addPatient name isUrgent now).state.getTotalSize ≤ q.maxSize := by
  by_cases hfull : q.getTotalSize ≥ q.maxSize
  · rw [addPatient_of_full q name isUrgent now hfull]
    exact h
  · have hroom : q.getTotalSize < q.maxSize := not_le.mp hfull
    rw [addPatient_of_room q name isUrgent now hroom]
    cases isUrgent <;> simp [getTotalSize] at hroom ⊢ <;> omega

theorem nextPatient_maxSize (q : PatientQueue) :
    q.nextPatient.state.maxSize = q.maxSize := by
  unfold nextPatient
  split
  · rfl
  · split <;> rfl

theorem nextPatient_total_le (q : PatientQueue) :
    q.nextPatient.state.getTotalSize ≤ q.getTotalSize := by
  rcases q with ⟨r, u, m, i⟩
  cases u with
  | cons p rest => simp [nextPatient, getTotalSize]
  | nil =>
    cases r with
    | cons p rest => simp [nextPatient, getTotalSize]
    | nil => simp [nextPatient]

theorem call_maxSize (q : PatientQueue) (c : Call) : (call q c).maxSize = q.maxSize := by
  cases c with
  | addPatient name isUrgent now => exact addPatient_maxSize q name isUrgent now
  | nextPatient => exact nextPatient_maxSize q

theorem call_total_le (q : PatientQueue) (c : Call) (h : q.getTotalSize ≤ q.maxSize) :
    (call q c).getTotalSize ≤ q.maxSize := by
  cases c with
  | addPatient name isUrgent now => exact addPatient_total_le q name isUrgent now h
  | nextPatient => exact le_trans (nextPatient_total_le q) h

theorem calls_bounded (cs : List Call) :
    ∀ q : PatientQueue, q.getTotalSize ≤ q.maxSize →
      (calls q cs).maxSize = q.maxSize ∧ (calls q cs).getTotalSize ≤ q.maxSize := by
  induction cs with
  | nil => intro q h; exact ⟨rfl, h⟩
  | cons c rest ih =>
    intro q h
    have hm := call_maxSize q c
    have ht := call_total_le q c h
    have := ih (call q c) (by rw [hm]; exact ht)
    simpa [calls, hm] using this

theorem addAll_of_room (admits : List (String × Bool × Int)) :
    ∀ q : PatientQueue, q.getTotalSize + (admits.length : Int) ≤ q.maxSize →
      addAllAccepted q admits = true ∧
      addAll q admits =
        { q with
          urgentQueue := q.urgentQueue ++ (admits.filter (fun a => a.2.1)).map admitted,
          regularQueue := q.regularQueue ++ (admits.filter (fun a => !a.2.1)).map admitted } := by
  induction admits with
  | nil => intro q _; simp [addAll, addAllAccepted]
  | cons a rest ih =>
    intro q h
    obtain ⟨name, isUrgent, now⟩ := a
    have hroom : q.getTotalSize < q.maxSize := by
      simp only [List.length_cons, Nat.cast_add, Nat.cast_one] at h
      omega
    have hadd := addPatient_of_room q name isUrgent now hroom
    have hnext : (q.addPatient name isUrgent now).state.getTotalSize + (rest.length : Int)
        ≤ (q.addPatient name isUrgent now).state.maxSize := by
      rw [addPatient_maxSize, hadd]
      simp only [List.length_cons, Nat.cast_add, Nat.cast_one] at h
      cases isUrgent <;> simp [getTotalSize] at h ⊢ <;> omega
    obtain ⟨ih1, ih2⟩ := ih (q.addPatient name isUrgent now).state hnext
    refine ⟨?_, ?_⟩
    · simp only [addAllAccepted, ih1, Bool.and_true]
      rw [hadd]
    · simp only [addAll, ih2]
      rw [hadd]
      cases isUrgent <;> simp [admitted]

theorem nextUntilFail_of_fuel (fuel : Nat) :
    ∀ q : PatientQueue, q.urgentQueue.length + q.regularQueue.length < fuel →
      nextUntilFail fuel q =
        some (q.urgentQueue ++ q.regularQueue,
              { q with urgentQueue := [], regularQueue := [] }) := by
  induction fuel with
  | zero => intro q h; omega
  | succ n ih =>
    intro q h
    rcases q with ⟨r, u, m, i⟩
    cases u with
    | cons p rest =>
      simp only [List.length_cons] at h
      have := ih ⟨r, rest, m, i⟩ (by simp only; omega)
      simp [nextUntilFail, nextPatient, this]
    | nil =>
      cases r with
      | cons p rest =>
        simp only [List.length_cons, List.length_nil] at h
        have := ih ⟨rest, [], m, i⟩ (by simp only [List.length_nil]; omega)
        simp [nextUntilFail, nextPatient, this]
      | nil => simp [nextUntilFail, nextPatient]

theorem copyToVector_eq (temp : List Patient) :
    ∀ v : List Patient, copyToVector temp v = v ++ temp := by
  induction temp with
  | nil => intro v; simp [copyToVector]
  | cons p rest ih => intro v; simp [copyToVector, ih]

theorem sortByArrival_false_iff (a b : Patient) :
    sortByArrival b a = false ↔ a.arrivalTime ≤ b.arrivalTime := by
  simp [sortByArrival]

theorem sortByArrival_total :
    IsTotal Patient (fun a b => sortByArrival b a = false) :=
  ⟨fun a b => by
    simp only [sortByArrival_false_iff]
    exact le_total a.arrivalTime b.arrivalTime⟩

theorem sortByArrival_trans :
    IsTrans Patient (fun a b => sortByArrival b a = false) :=
  ⟨fun a b c hab hbc => by
    simp only [sortByArrival_false_iff] at hab hbc ⊢
    exact le_trans hab hbc⟩

theorem insertionStdSort_contract : StdSortContract insertionStdSort := by
  intro v
  haveI := sortByArrival_total
  haveI := sortByArrival_trans
  exact ⟨List.perm_insertionSort _ v, List.sorted_insertionSort _ v⟩

theorem sortedVectors_spec
    (stdSort : (Patient → Patient → Bool) → List Patient → List Patient)
    (hsort : StdSortContract stdSort) (q : PatientQueue) :
    (sortedVectors stdSort q).1.Perm q.urgentQueue
    ∧ (sortedVectors stdSort q).1.Pairwise (fun a b => a.arrivalTime ≤ b.arrivalTime)
    ∧ (sortedVectors stdSort q).2.Perm q.regularQueue
    ∧ (sortedVectors stdSort q).2.Pairwise (fun a b => a.arrivalTime ≤ b.arrivalTime) := by
  have hu := hsort q.urgentQueue
  have hr := hsort q.regularQueue
  simp only [sortedVectors, copyToVector_eq, List.nil_append]
  refine ⟨hu.1, ?_, hr.1, ?_⟩
  · exact hu.2.imp (fun {a b} h => (sortByArrival_false_iff a b).mp h)
  · exact hr.2.imp (fun {a b} h => (sortByArrival_false_iff a b).mp h)

end PatientQueue

namespace HospitalSystem

/-! ### Lemmas on the reading loop and the constructor -/

theorem newQueues_length (numSpecializations maxQueueSize : Int) :
    (newQueues numSpecializations maxQueueSize).length = numSpecializations.toNat + 1 := by
  simp only [newQueues, List.length_cons, List.length_map, List.length_range]

theorem new_of_int_range (numSpecializations maxQueueSize : Int)
    (h0 : 0 ≤ numSpecializations + 1) (h1 : numSpecializations < 2 ^ 31 - 1) :
    new numSpecializations maxQueueSize
      = .ok { specializations := newQueues numSpecializations maxQueueSize,
              maxQueueSize := maxQueueSize } := by
  have ha : ¬ (numSpecializations + 1 ≥ 2 ^ 31) := by omega
  have hb : ¬ (numSpecializations + 1 < 0) := by omega
  simp only [new, ha, hb, if_false]

theorem readSpecialization_valid (h : HospitalSystem) (reads : List (Option Int)) :
    ∀ (v : Int) (prompts : List String),
      h.readSpecialization reads = some (v, prompts) → h.isValidSpecialization v = true := by
  induction reads with
  | nil => intro v prompts hr; simp [readSpecialization] at hr
  | cons r rest ih =>
    intro v prompts hr
    cases hrest : h.readSpecialization rest with
    | none =>
      cases r with
      | none => simp [readSpecialization, hrest] at hr
      | some x =>
        by_cases hx : h.isValidSpecialization x = true
        · simp only [readSpecialization, hx, if_true, Option.some.injEq, Prod.mk.injEq] at hr
          rw [← hr.1]; exact hx
        · simp [readSpecialization, hx, hrest] at hr
    | some r2 =>
      obtain ⟨v2, p2⟩ := r2
      have hv2 := ih v2 p2 hrest
      cases r with
      | none =>
        simp [readSpecialization, hrest] at hr
        rw [← hr.1]; exact hv2
      | some x =>
        by_cases hx : h.isValidSpecialization x = true
        · simp only [readSpecialization, hx, if_true, Option.some.injEq, Prod.mk.injEq] at hr
          rw [← hr.1]; exact hx
        · simp [readSpecialization, hx, hrest] at hr
          rw [← hr.1]; exact hv2

theorem readSpecialization_skip (h : HospitalSystem) (x : Int) (rest : List (Option Int))
    (hx : h.isValidSpecialization x = false) :
    h.readSpecialization (some x :: rest)
      = (h.readSpecialization rest).map (fun r =>
          (r.1, ("Invalid input. Please enter a number between 1 and "
                    ++ h.lastIdText ++ ": ") :: r.2)) := by
  simp [readSpecialization, hx]

theorem set_frame (l : List PatientQueue) (v : Int) (hv : 1 ≤ v) (x : PatientQueue) :
    (l.set v.toNat x).length = l.length
      ∧ ∀ i : Nat, (i : Int) ≠ v → (l.set v.toNat x)[i]? = l[i]? := by
  refine ⟨List.length_set _ _ _, ?_⟩
  intro i hi
  have hne : v.toNat ≠ i := by
    intro heq
    have := Int.toNat_of_nonneg (by omega : 0 ≤ v)
    omega
  exact List.getElem?_set_ne hne

theorem addPatient_frame (h : HospitalSystem) (inp : AddInput)
    (r : Step HospitalSystem Unit) (hr : h.addPatient inp = some r) :
    ∃ (v : Int) (prompts : List String),
      h.readSpecialization inp.specializationReads = some (v, prompts)
      ∧ h.isValidSpecialization v = true
      ∧ r.state.maxQueueSize = h.maxQueueSize
      ∧ r.state.specializations.length = h.specializations.length
      ∧ ∀ i : Nat, (i : Int) ≠ v → r.state.specializations[i]? = h.specializations[i]? := by
  unfold addPatient at hr
  cases hrs : h.readSpecialization inp.specializationReads with
  | none => simp [hrs] at hr
  | some p =>
    obtain ⟨v, prompts⟩ := p
    have hv := readSpecialization_valid h _ v prompts hrs
    have hv1 : 1 ≤ v := by
      simp only [isValidSpecialization, Bool.and_eq_true, decide_eq_true_eq] at hv
      exact hv.1
    refine ⟨v, prompts, rfl, hv, ?_⟩
    simp only [hrs] at hr
    split at hr
    · simp only [Option.some.injEq] at hr
      subst hr
      exact ⟨rfl, rfl, fun _ _ => rfl⟩
    · split at hr
      · exact absurd hr (by simp)
      · split at hr
        · exact absurd hr (by simp)
        · simp only [Option.some.injEq] at hr
          subst hr
          obtain ⟨hl, hf⟩ := set_frame h.specializations v hv1 _
          exact ⟨rfl, hl, hf⟩

theorem getNextPatient_frame (fmt : Int → String) (h : HospitalSystem)
    (reads : List (Option Int)) (r : Step HospitalSystem Unit)
    (hr : getNextPatient fmt h reads = some r) :
    ∃ (v : Int) (prompts : List String),
      h.readSpecialization reads = some (v, prompts)
      ∧ h.isValidSpecialization v = true
      ∧ r.state.maxQueueSize = h.maxQueueSize
      ∧ r.state.specializations.length = h.specializations.length
      ∧ ∀ i : Nat, (i : Int) ≠ v → r.state.specializations[i]? = h.specializations[i]? := by
  unfold getNextPatient at hr
  cases hrs : h.readSpecialization reads with
  | none => simp [hrs] at hr
  | some p =>
    obtain ⟨v, prompts⟩ := p
    have hv := readSpecialization_valid h _ v prompts hrs
    have hv1 : 1 ≤ v := by
      simp only [isValidSpecialization, Bool.and_eq_true, decide_eq_true_eq] at hv
      exact hv.1
    refine ⟨v, prompts, rfl, hv, ?_⟩
    simp only [hrs] at hr
    split at hr
    · exact absurd hr (by simp)
    · obtain ⟨hl, hf⟩ := set_frame h.specializations v hv1 _
      split at hr
      · simp only [Option.some.injEq] at hr
        subst hr
        exact ⟨rfl, hl, hf⟩
      · simp only [Option.some.injEq] at hr
        subst hr
        exact ⟨rfl, hl, hf⟩

theorem valid_index_in_range (h : HospitalSystem) (v : Int)
    (hv : h.isValidSpecialization v = true) :
    ∃ q, h.specializations[v.toNat]? = some q := by
  simp only [isValidSpecialization, Bool.and_eq_true, decide_eq_true_eq] at hv
  have hlt : v.toNat < h.specializations.length := by
    have := Int.toNat_of_nonneg (by omega : 0 ≤ v)
    omega
  exact ⟨h.specializations[v.toNat], List.getElem?_eq_getElem hlt⟩

end HospitalSystem

end Hospital

namespace Hospital

namespace HospitalSystem

/-! ### Lemmas on the binary64 product `maxQueueSize * 0.8` -/

theorem excessBits_le (fuel : Nat) : ∀ (k n : Nat), n < 2 ^ (53 + k) → excessBits fuel n ≤ k := by
  induction fuel with
  | zero => intro k n _; simp [excessBits]
  | succ f ih =>
    intro k n h
    unfold excessBits
    split
    · exact Nat.zero_le _
    · rename_i hn
      cases k with
      | zero => exact absurd h hn
      | succ k =>
        have : n / 2 < 2 ^ (53 + k) := by
          have : 2 ^ (53 + (k + 1)) = 2 * 2 ^ (53 + k) := by rw [← Nat.add_assoc, Nat.pow_succ]; ring
          omega
        have := ih k (n / 2) this
        omega

theorem excessBits_div_lt (fuel : Nat) : ∀ n : Nat, n < 2 ^ (53 + fuel) →
    n / 2 ^ excessBits fuel n < 2 ^ 53 := by
  induction fuel with
  | zero => intro n h; simpa [excessBits] using h
  | succ f ih =>
    intro n h
    unfold excessBits
    split
    · rename_i hn; simpa using hn
    · have : n / 2 < 2 ^ (53 + f) := by
        have : 2 ^ (53 + (f + 1)) = 2 * 2 ^ (53 + f) := by rw [← Nat.add_assoc, Nat.pow_succ]; ring
        omega
      have := ih (n / 2) this
      rw [Nat.pow_succ, Nat.mul_comm, ← Nat.div_div_eq_div_mul]
      exact this

theorem lt_two_pow_add (n : Nat) : n < 2 ^ (53 + n) :=
  lt_of_lt_of_le (Nat.lt_two_pow n) (Nat.pow_le_pow_right (by decide) (by omega))

theorem roundNearestEven53_near (n : Nat) :
    2 * roundNearestEven53 n ≤ 2 * n + 2 ^ excessBits n n
      ∧ 2 * n ≤ 2 * roundNearestEven53 n + 2 ^ excessBits n n := by
  have hdm := Nat.div_add_mod n (2 ^ excessBits n n)
  have hr := Nat.mod_lt n (Nat.two_pow_pos (excessBits n n))
  have hq : (n / 2 ^ excessBits n n + 1) * 2 ^ excessBits n n
      = 2 ^ excessBits n n * (n / 2 ^ excessBits n n) + 2 ^ excessBits n n := by ring
  have hq2 : (n / 2 ^ excessBits n n) * 2 ^ excessBits n n
      = 2 ^ excessBits n n * (n / 2 ^ excessBits n n) := by ring
  simp only [roundNearestEven53]
  split_ifs <;> rw [hq] at * <;> omega

theorem roundNearestEven53_down (n : Nat)
    (h : 2 * (n % 2 ^ excessBits n n) < 2 ^ excessBits n n) :
    roundNearestEven53 n + n % 2 ^ excessBits n n = n := by
  have hdm := Nat.div_add_mod n (2 ^ excessBits n n)
  simp only [roundNearestEven53, if_pos h]
  rw [Nat.mul_comm]
  exact hdm

theorem roundNearestEven53_exact (k : Nat) (hk : 5 * k < 2 ^ 31) :
    roundNearestEven53 (5 * k * double08) = 4 * k * 2 ^ 53 := by
  have hM : 5 * k * double08 = 4 * k * 2 ^ 53 + 2 * k := by
    simp only [double08]; norm_num; omega
  have hn : 5 * k * double08 < 2 ^ (53 + 31) := by
    rw [hM]; norm_num at hk ⊢; omega
  have hs := excessBits_le (5 * k * double08) 31 (5 * k * double08) hn
  have hlt := excessBits_div_lt (5 * k * double08) (5 * k * double08) (lt_two_pow_add _)
  rw [Nat.div_lt_iff_lt_mul (Nat.two_pow_pos _)] at hlt
  have hpow : (2 : Nat) ^ 53 = 2 ^ excessBits (5 * k * double08) (5 * k * double08)
      * 2 ^ (53 - excessBits (5 * k * double08) (5 * k * double08)) := by
    rw [← Nat.pow_add]; congr 1; omega
  have hdown := roundNearestEven53_down (5 * k * double08)
  generalize excessBits (5 * k * double08) (5 * k * double08) = s at hs hlt hpow hdown
  generalize hp : 2 ^ s = p at hlt hpow hdown
  generalize 2 ^ (53 - s) = e at hpow
  have h4k : 4 * k < p := by
    rw [hM] at hlt
    by_contra hcon
    have : 2 ^ 53 * p ≤ 2 ^ 53 * (4 * k) := Nat.mul_le_mul_left _ (not_lt.mp hcon)
    norm_num at this hlt
    omega
  have hmod : (5 * k * double08) % p = 2 * k := by
    have : 5 * k * double08 = p * (4 * k * e) + 2 * k := by
      rw [hM, hpow]; ring
    rw [this, Nat.mul_add_mod]
    exact Nat.mod_eq_of_lt (by omega)
  rw [hmod] at hdown
  have := hdown (by omega)
  omega

theorem ge_mul08_iff (c t : Nat) (hc1 : 1 ≤ c) (hc : c < 2 ^ 31) :
    roundNearestEven53 (c * double08) ≤ t * 2 ^ 53 ↔ 4 * c ≤ 5 * t := by
  have hn : c * double08 < 2 ^ (53 + 31) := by
    simp only [double08]; norm_num; omega
  have hs := excessBits_le (c * double08) 31 (c * double08) hn
  have hp : 2 ^ excessBits (c * double08) (c * double08) ≤ 2 ^ 31 :=
    Nat.pow_le_pow_right (by decide) hs
  obtain ⟨hnear1, hnear2⟩ := roundNearestEven53_near (c * double08)
  have hM : c * double08 = c * 7205759403792794 := by simp [double08]
  rw [hM] at hnear1 hnear2 hp ⊢
  norm_num at hp ⊢
  constructor
  · intro h
    omega
  · intro h
    by_cases hex : 4 * c = 5 * t
    · obtain ⟨k, hk1, hk2⟩ : ∃ k, c = 5 * k ∧ t = 4 * k := ⟨c / 5, by omega, by omega⟩
      subst hk1 hk2
      have := roundNearestEven53_exact k hc
      simp only [double08] at this
      norm_num at this
      omega
    · omega

theorem mul08_natCast (c : Nat) :
    mul08 (c : Int) = ((roundNearestEven53 (c * double08) : Nat) : Int) := by
  have h : ¬ ((c : Int) < 0) := by omega
  simp [mul08, h]

theorem statusText_natCast (c t : Nat) (hc1 : 1 ≤ c) (hc : c < 2 ^ 31) :
    statusText (c : Int) (t : Int) = specStatus (c : Int) (t : Int) := by
  have hiff := ge_mul08_iff c t hc1 hc
  have hbusy : ((t : Int) * 2 ^ 53 ≥ mul08 (c : Int)) ↔ (5 * (t : Int) ≥ 4 * (c : Int)) := by
    rw [mul08_natCast]
    constructor
    · intro h
      have h2 : roundNearestEven53 (c * double08) ≤ t * 2 ^ 53 := by exact_mod_cast h
      have h3 := hiff.mp h2
      omega
    · intro h
      have h2 : 4 * c ≤ 5 * t := by omega
      have h3 := hiff.mpr h2
      exact_mod_cast h3
  unfold statusText specStatus
  by_cases h0 : (t : Int) = 0
  · simp [h0]
  · by_cases hfull : (t : Int) ≥ (c : Int)
    · simp [h0, hfull]
    · by_cases hb : 5 * (t : Int) ≥ 4 * (c : Int)
      · have hb2 := hbusy.mpr hb
        simp only [beq_iff_eq, h0, hfull, hb, hb2, if_true, if_false]
      · have hb2 : ¬ ((t : Int) * 2 ^ 53 ≥ mul08 (c : Int)) := fun h => hb (hbusy.mp h)
        simp only [beq_iff_eq, h0, hfull, hb, hb2, if_true, if_false]

end HospitalSystem

end Hospital

/-! ## The claims -/

namespace Hospital

namespace PatientQueue

/-- C1: capacity invariant.  For a queue constructed empty with `maxSize >= 1`,
after every call of every finite sequence of `addPatient` and `nextPatient`
calls (rejected adds and throwing dispatches included), that is after every
prefix of the sequence, `getUrgentSize() + getRegularSize() <= maxSize`. -/
theorem capacity_invariant (specializationId maxSize : Int) (hmax : 1 ≤ maxSize)
    (cs : List Call) (k : Nat) :
    (calls (new specializationId maxSize) (cs.take k)).getUrgentSize
        + (calls (new specializationId maxSize) (cs.take k)).getRegularSize ≤ maxSize := by
  have h0 : (new specializationId maxSize).getTotalSize
      ≤ (new specializationId maxSize).maxSize := by
    simp [new, getTotalSize]; omega
  have h := (calls_bounded (cs.take k) (new specializationId maxSize) h0).2
  rw [getTotalSize_eq] at h
  exact h

/-- Witness of C1: capacity 2, five calls of which one add is rejected and one
dispatch throws; the bound holds after the first four. -/
theorem capacity_invariant_witness :
    (1 : Int) ≤ 2 ∧
    (calls (new 1 2) ([Call.nextPatient, Call.addPatient "Alice" false 10,
        Call.addPatient "Bob" true 11, Call.addPatient "Carol" false 12,
        Call.nextPatient].take 4)).getUrgentSize
      + (calls (new 1 2) ([Call.nextPatient, Call.addPatient "Alice" false 10,
        Call.addPatient "Bob" true 11, Call.addPatient "Carol" false 12,
        Call.nextPatient].take 4)).getRegularSize ≤ 2 :=
  ⟨by decide, capacity_invariant 1 2 (by decide) _ 4⟩

/-- C2: in every queue state with `urgentCount + regularCount >= capacity`,
`addPatient` returns `false` for every name and priority flag and leaves the
queue, hence both tiers with their entities, order and counts, as it was. -/
theorem addPatient_at_capacity_rejected (q : PatientQueue) (name : String)
    (isUrgent : Bool) (now : Int)
    (hfull : q.getUrgentSize + q.getRegularSize ≥ q.maxSize) :
    (q.addPatient name isUrgent now).ret = false
      ∧ (q.addPatient name isUrgent now).state = q
      ∧ (q.addPatient name isUrgent now).state.urgentQueue = q.urgentQueue
      ∧ (q.addPatient name isUrgent now).state.regularQueue = q.regularQueue
      ∧ (q.addPatient name isUrgent now).state.getUrgentSize = q.getUrgentSize
      ∧ (q.addPatient name isUrgent now).state.getRegularSize = q.getRegularSize := by
  rw [← getTotalSize_eq] at hfull
  rw [addPatient_of_full q name isUrgent now hfull]
  exact ⟨rfl, rfl, rfl, rfl, rfl, rfl⟩

/-- Witness of C2: capacity 2 holding Alice (regular) and Bob (urgent); Carol
(regular) is rejected and the occupancy stays (1, 1, 2). -/
theorem addPatient_at_capacity_rejected_witness :
    (addAll (new 1 2) [("Alice", false, 10), ("Bob", true, 11)]).getUrgentSize = 1
    ∧ (addAll (new 1 2) [("Alice", false, 10), ("Bob", true, 11)]).getRegularSize = 1
    ∧ (addAll (new 1 2) [("Alice", false, 10), ("Bob", true, 11)]).getTotalSize = 2
    ∧ ((addAll (new 1 2) [("Alice", false, 10), ("Bob", true, 11)]).addPatient
          "Carol" false 12).ret = false
    ∧ ((addAll (new 1 2) [("Alice", false, 10), ("Bob", true, 11)]).addPatient
          "Carol" false 12).state
        = addAll (new 1 2) [("Alice", false, 10), ("Bob", true, 11)] :=
  have h := addPatient_at_capacity_rejected
    (addAll (new 1 2) [("Alice", false, 10), ("Bob", true, 11)]) "Carol" false 12
    (by decide)
  ⟨by decide, by decide, by decide, h.1, h.2.1⟩

/-- C3: dispatch selection rule.  When the urgent tier is not empty,
`nextPatient` returns its head, removes exactly that entity and leaves the
regular tier unchanged, whatever the regular tier holds and whatever the
arrival times are; when the urgent tier is empty and the regular tier is not,
it returns and removes the head of the regular tier.  In both cases the total
count goes down by exactly 1.  Admitting regular R1 then urgent U1 to an empty
queue with room for two, the first dispatch returns U1 and the second R1. -/
theorem nextPatient_selection (q : PatientQueue) :
    (∀ hu : q.urgentQueue ≠ [],
        q.nextPatient.ret = .ok (q.urgentQueue.head hu)
        ∧ q.nextPatient.state = { q with urgentQueue := q.urgentQueue.tail }
        ∧ q.nextPatient.state.regularQueue = q.regularQueue
        ∧ q.nextPatient.state.getTotalSize = q.getTotalSize - 1)
    ∧ (q.urgentQueue = [] → ∀ hr : q.regularQueue ≠ [],
        q.nextPatient.ret = .ok (q.regularQueue.head hr)
        ∧ q.nextPatient.state = { q with regularQueue := q.regularQueue.tail }
        ∧ q.nextPatient.state.urgentQueue = q.urgentQueue
        ∧ q.nextPatient.state.getTotalSize = q.getTotalSize - 1)
    ∧ (∀ (specializationId maxSize : Int) (r1 u1 : String) (t1 t2 : Int), 2 ≤ maxSize →
        ((addAll (new specializationId maxSize)
            [(r1, false, t1), (u1, true, t2)]).nextPatient).ret
          = .ok (Patient.new u1 true t2)
        ∧ ((addAll (new specializationId maxSize)
            [(r1, false, t1), (u1, true, t2)]).nextPatient).state.nextPatient.ret
          = .ok (Patient.new r1 false t1)) := by
  refine ⟨?_, ?_, ?_⟩
  · intro hu
    rcases q with ⟨r, u, m, i⟩
    cases u with
    | nil => exact absurd rfl hu
    | cons p rest => simp [nextPatient, getTotalSize]; omega
  · intro hu hr
    rcases q with ⟨r, u, m, i⟩
    simp only at hu
    subst hu
    cases r with
    | nil => exact absurd rfl hr
    | cons p rest => simp [nextPatient, getTotalSize]
  · intro specializationId maxSize r1 u1 t1 t2 hmax
    have h0 : ¬ (0 : Int) ≥ maxSize := by omega
    have h1 : ¬ (1 : Int) ≥ maxSize := by omega
    simp [addAll, addPatient, new, getTotalSize, h0, h1, nextPatient]

/-- Witness of C3: an urgent patient that arrived after three regular ones is
dispatched first, and the regular tier is untouched. -/
theorem nextPatient_selection_witness :
    ((⟨[⟨"R1", false, 1⟩, ⟨"R2", false, 2⟩, ⟨"R3", false, 3⟩], [⟨"U1", true, 9⟩], 5, 1⟩
        : PatientQueue).nextPatient).ret = .ok ⟨"U1", true, 9⟩
    ∧ ((⟨[⟨"R1", false, 1⟩, ⟨"R2", false, 2⟩, ⟨"R3", false, 3⟩], [⟨"U1", true, 9⟩], 5, 1⟩
        : PatientQueue).nextPatient).state.regularQueue
      = [⟨"R1", false, 1⟩, ⟨"R2", false, 2⟩, ⟨"R3", false, 3⟩]
    ∧ ((addAll (new 1 5) [("R1", false, 1), ("U1", true, 2)]).nextPatient).ret
      = .ok (Patient.new "U1" true 2)
    ∧ ((addAll (new 1 5) [("R1", false, 1), ("U1", true, 2)]).nextPatient).state.nextPatient.ret
      = .ok (Patient.new "R1" false 1) :=
  have h := ((nextPatient_selection
    ⟨[⟨"R1", false, 1⟩, ⟨"R2", false, 2⟩, ⟨"R3", false, 3⟩], [⟨"U1", true, 9⟩], 5, 1⟩).1
    (by decide))
  have h2 := (nextPatient_selection (new 1 5)).2.2 1 5 "R1" "U1" 1 2 (by decide)
  ⟨h.1, h.2.2.1, h2.1, h2.2⟩

/-- C5: in every queue state with `urgentCount + regularCount < capacity`,
`addPatient(name, isUrgent)` returns `true` and appends one entity carrying
that name and that flag at the tail of the urgent tier when `isUrgent` is true
and of the regular tier otherwise; the other tier and the earlier entities of
the chosen tier stay as they were, in the same order, and the total count
grows by exactly 1. -/
theorem addPatient_below_capacity_appends (q : PatientQueue) (name : String)
    (isUrgent : Bool) (now : Int)
    (hroom : q.getUrgentSize + q.getRegularSize < q.maxSize) :
    (q.addPatient name isUrgent now).ret = true
      ∧ (isUrgent = true →
          (q.addPatient name isUrgent now).state
            = { q with urgentQueue :=
                  q.urgentQueue ++ [{ name := name, isUrgent := isUrgent, arrivalTime := now }] })
      ∧ (isUrgent = false →
          (q.addPatient name isUrgent now).state
            = { q with regularQueue :=
                  q.regularQueue ++ [{ name := name, isUrgent := isUrgent, arrivalTime := now }] })
      ∧ (q.addPatient name isUrgent now).state.getUrgentSize
          + (q.addPatient name isUrgent now).state.getRegularSize
          = q.getUrgentSize + q.getRegularSize + 1 := by
  rw [← getTotalSize_eq] at hroom
  rw [addPatient_of_room q name isUrgent now hroom]
  cases isUrgent <;> simp [Patient.new, getUrgentSize, getRegularSize] <;> omega

/-- Witness of C5: the scenario of the specification.  Capacity 2: Alice
(regular) is admitted, occupancy (0, 1, 1); then Bob (urgent), occupancy
(1, 1, 2). -/
theorem addPatient_below_capacity_appends_witness :
    ((new 1 2).addPatient "Alice" false 10).ret = true
    ∧ ((new 1 2).addPatient "Alice" false 10).state
        = ⟨[⟨"Alice", false, 10⟩], [], 2, 1⟩
    ∧ (((new 1 2).addPatient "Alice" false 10).state.addPatient "Bob" true 11).state
        = ⟨[⟨"Alice", false, 10⟩], [⟨"Bob", true, 11⟩], 2, 1⟩ :=
  have h := addPatient_below_capacity_appends (new 1 2) "Alice" false 10 (by decide)
  ⟨h.1, h.2.2.1 rfl, by decide⟩

/-- C6: `nextPatient` throws (the `runtime_error` "No patients in queue") if and
only if both tiers are empty, that is `isEmpty()` is true, and when it throws
the queue state is unchanged; a freshly constructed queue of capacity 5 throws
on its first dispatch and stays empty. -/
theorem nextPatient_throws_iff_empty (q : PatientQueue) :
    ((∃ e, q.nextPatient.ret = .error e) ↔ q.isEmpty = true)
    ∧ (q.isEmpty = true ↔ q.urgentQueue = [] ∧ q.regularQueue = [])
    ∧ (∀ e, q.nextPatient.ret = .error e →
        e = "No patients in queue" ∧ q.nextPatient.state = q)
    ∧ (∀ specializationId : Int,
        (new specializationId 5).nextPatient
          = { ret := .error "No patients in queue", state := new specializationId 5, out := [] }
        ∧ (new specializationId 5).isEmpty = true) := by
  refine ⟨?_, ?_, ?_, ?_⟩
  · rcases q with ⟨r, u, m, i⟩
    cases u with
    | cons p rest => simp [nextPatient, isEmpty]
    | nil =>
      cases r with
      | cons p rest => simp [nextPatient, isEmpty]
      | nil => simp [nextPatient, isEmpty]
  · simp [isEmpty, List.isEmpty_iff]
  · intro e he
    rcases q with ⟨r, u, m, i⟩
    cases u with
    | cons p rest => simp [nextPatient] at he
    | nil =>
      cases r with
      | cons p rest => simp [nextPatient] at he
      | nil =>
        simp [nextPatient] at he
        exact ⟨he.symm, rfl⟩
  · intro specializationId
    exact ⟨rfl, rfl⟩

/-- C4: FIFO within a tier.  Starting from an empty queue of capacity `c`, a
sequence of at most `c` admits is accepted whole, and calling `nextPatient`
until it throws (any number of calls above the number of admits allows that)
returns exactly the admitted entities, each once: first the urgent ones in
admission order, then the regular ones in admission order, leaving the queue
empty.  Admitting A then B with the same priority and dispatching twice gives
A, then B. -/
theorem nextPatient_fifo_per_tier (specializationId c : Int)
    (admits : List (String × Bool × Int)) (hlen : (admits.length : Int) ≤ c)
    (fuel : Nat) (hfuel : admits.length < fuel) :
    addAllAccepted (new specializationId c) admits = true
    ∧ nextUntilFail fuel (addAll (new specializationId c) admits)
        = some ((admits.filter (fun a => a.2.1)).map admitted
                  ++ (admits.filter (fun a => !a.2.1)).map admitted,
                new specializationId c)
    ∧ ((admits.filter (fun a => a.2.1)).map admitted
          ++ (admits.filter (fun a => !a.2.1)).map admitted).Perm (admits.map admitted)
    ∧ (∀ (a b : String) (p : Bool) (ta tb : Int), 2 ≤ c →
        (addAll (new specializationId c) [(a, p, ta), (b, p, tb)]).nextPatient.ret
          = .ok (Patient.new a p ta)
        ∧ (addAll (new specializationId c)
              [(a, p, ta), (b, p, tb)]).nextPatient.state.nextPatient.ret
          = .ok (Patient.new b p tb)) := by
  have h0 : (new specializationId c).getTotalSize + (admits.length : Int)
      ≤ (new specializationId c).maxSize := by
    simp [new, getTotalSize]; exact hlen
  obtain ⟨hacc, hall⟩ := addAll_of_room admits (new specializationId c) h0
  refine ⟨hacc, ?_, ?_, ?_⟩
  · rw [hall]
    rw [nextUntilFail_of_fuel fuel]
    · simp [new]
    · have hle := List.length_filter_le (fun a : String × Bool × Int => a.2.1) admits
      have hsum : (admits.filter (fun a => a.2.1)).length
          + (admits.filter (fun a => !a.2.1)).length = admits.length := by
        have := (List.filter_append_perm (fun a : String × Bool × Int => a.2.1) admits).length_eq
        simpa using this
      simp [new]
      omega
  · have := List.filter_append_perm (fun a : String × Bool × Int => a.2.1) admits
    have h2 := this.map admitted
    simpa using h2
  · intro a b p ta tb hc
    have h1 : ¬ (0 : Int) ≥ c := by omega
    have h2 : ¬ (1 : Int) ≥ c := by omega
    cases p <;> simp [addAll, addPatient, new, getTotalSize, h1, h2, nextPatient]

/-- Witness of C4: capacity 4 and four admits in the order R1, U1, R2, U2; the
dispatch loop returns U1, U2, R1, R2 and then throws on the empty queue. -/
theorem nextPatient_fifo_per_tier_witness :
    nextUntilFail 5 (addAll (new 1 4)
        [("R1", false, 1), ("U1", true, 2), ("R2", false, 3), ("U2", true, 4)])
      = some ([⟨"U1", true, 2⟩, ⟨"U2", true, 4⟩, ⟨"R1", false, 1⟩, ⟨"R2", false, 3⟩],
              new 1 4) :=
  (nextPatient_fifo_per_tier 1 4
    [("R1", false, 1), ("U1", true, 2), ("R2", false, 3), ("U2", true, 4)]
    (by decide) 5 (by decide)).2.1

end PatientQueue

end Hospital

namespace Hospital

namespace HospitalSystem

/-- C9: the status printed by `printStatistics` depends on the total and the
capacity only, and for every capacity from 1 up to the largest `int` and every
total >= 0 it is Empty if total = 0, otherwise Full if total >= capacity,
otherwise Busy if total >= 0.8 x capacity exactly (5 * total >= 4 * capacity),
otherwise Available: the binary64 comparison of the code agrees with the exact
one.  With capacity 5: total 0 is Empty, 3 Available, 4 Busy, 5 Full. -/
theorem statusText_thresholds (capacity total : Int) (hcap : 1 ≤ capacity)
    (hint : capacity < 2 ^ 31) (htotal : 0 ≤ total) :
    statusText capacity total = specStatus capacity total
    ∧ (∀ (h : HospitalSystem) (i : Nat) (q : PatientQueue),
        h.maxQueueSize = capacity → q.getUrgentSize + q.getRegularSize = total →
        ∃ columns : String,
          statisticsRow h i q = columns ++ statusText capacity total ++ "\n")
    ∧ statusText 5 0 = "Empty" ∧ statusText 5 3 = "Available"
    ∧ statusText 5 4 = "Busy" ∧ statusText 5 5 = "Full" := by
  refine ⟨?_, ?_, by decide, by decide, by decide, by decide⟩
  · obtain ⟨c, rfl⟩ := Int.eq_ofNat_of_zero_le (by omega : 0 ≤ capacity)
    obtain ⟨t, rfl⟩ := Int.eq_ofNat_of_zero_le htotal
    have hc1 : 1 ≤ c := by omega
    have hc : c < 2 ^ 31 := by
      have : ((c : Int)) < 2 ^ 31 := hint
      norm_num at this ⊢
      omega
    exact statusText_natCast c t hc1 hc
  · intro h i q hm ht
    subst hm ht
    exact ⟨_, rfl⟩

/-- Witness of C9: capacity 7, which is not a multiple of 5, with total 6; the
row is Busy since 5 * 6 >= 4 * 7. -/
theorem statusText_thresholds_witness :
    statusText 7 6 = specStatus 7 6 ∧ specStatus 7 6 = "Busy" :=
  ⟨(statusText_thresholds 7 6 (by decide) (by decide) (by decide)).1, by decide⟩

end HospitalSystem

end Hospital

namespace Hospital

namespace PatientQueue

/-- C10: `printQueue` is a read-only view.  For every queue state and every
`std::sort` meeting its contract, the urgent vector is printed whole before the
regular vector; each vector is a permutation of its tier in ascending
arrival-time order (oldest first); the call leaves the queue, hence both tiers
in contents and order, unchanged; and a second call right after the first
prints the same entities. -/
theorem printQueue_read_only
    (stdSort : (Patient → Patient → Bool) → List Patient → List Patient)
    (hsort : StdSortContract stdSort) (fmt : Int → String) (q : PatientQueue) :
    (printQueue stdSort fmt q).out
        = (sortedVectors stdSort q).1.map (urgentLine fmt)
            ++ (sortedVectors stdSort q).2.map (regularLine fmt)
    ∧ (sortedVectors stdSort q).1.Perm q.urgentQueue
    ∧ (sortedVectors stdSort q).1.Pairwise (fun a b => a.arrivalTime ≤ b.arrivalTime)
    ∧ (sortedVectors stdSort q).2.Perm q.regularQueue
    ∧ (sortedVectors stdSort q).2.Pairwise (fun a b => a.arrivalTime ≤ b.arrivalTime)
    ∧ (printQueue stdSort fmt q).state = q
    ∧ sortedVectors stdSort (printQueue stdSort fmt q).state = sortedVectors stdSort q
    ∧ (printQueue stdSort fmt (printQueue stdSort fmt q).state).out
        = (printQueue stdSort fmt q).out := by
  obtain ⟨h1, h2, h3, h4⟩ := sortedVectors_spec stdSort hsort q
  exact ⟨rfl, h1, h2, h3, h4, rfl, rfl, rfl⟩

/-- Witness of C10: insertion sort meets the contract of `std::sort`; a queue
whose tiers hold entities out of arrival order is listed oldest first, urgent
before regular, and is left as it was. -/
theorem printQueue_read_only_witness :
    StdSortContract insertionStdSort
    ∧ sortedVectors insertionStdSort
        ⟨[⟨"R1", false, 7⟩, ⟨"R2", false, 3⟩], [⟨"U1", true, 9⟩, ⟨"U2", true, 8⟩], 5, 1⟩
      = ([⟨"U2", true, 8⟩, ⟨"U1", true, 9⟩], [⟨"R2", false, 3⟩, ⟨"R1", false, 7⟩])
    ∧ (printQueue insertionStdSort (fun t => toString t)
        ⟨[⟨"R1", false, 7⟩, ⟨"R2", false, 3⟩], [⟨"U1", true, 9⟩, ⟨"U2", true, 8⟩], 5, 1⟩).state
      = ⟨[⟨"R1", false, 7⟩, ⟨"R2", false, 3⟩], [⟨"U1", true, 9⟩, ⟨"U2", true, 8⟩], 5, 1⟩ :=
  ⟨insertionStdSort_contract, by decide,
   (printQueue_read_only insertionStdSort insertionStdSort_contract (fun t => toString t)
      ⟨[⟨"R1", false, 7⟩, ⟨"R2", false, 3⟩], [⟨"U1", true, 9⟩, ⟨"U2", true, 8⟩], 5, 1⟩).2.2.2.2.2.1⟩

end PatientQueue

end Hospital

namespace Hospital

namespace HospitalSystem

/-- C7, evaluated on the code: a registry of one category with capacity 2 is
filled with Alice (regular) and Bob (urgent) through `addPatient`.  Admitting
Carol to category 1 then makes the queue return `false` and print its apology,
the registry is left unchanged, and `addPatient` still ends by printing
"Patient added successfully.": the value returned by the queue is dropped. -/
theorem addPatient_reports_success_when_full :
    new 1 2 = .ok ⟨[PatientQueue.new 0 2, PatientQueue.new 1 2], 2⟩
    ∧ (((⟨[PatientQueue.new 0 2, PatientQueue.new 1 2], 2⟩ : HospitalSystem).addPatient
          ⟨[some 1], "Alice", [some 0], 10⟩).bind
        (fun r => r.state.addPatient ⟨[some 1], "Bob", [some 1], 11⟩)).map (fun r => r.state)
      = some ⟨[PatientQueue.new 0 2, ⟨[⟨"Alice", false, 10⟩], [⟨"Bob", true, 11⟩], 2, 1⟩], 2⟩
    ∧ ((⟨[⟨"Alice", false, 10⟩], [⟨"Bob", true, 11⟩], 2, 1⟩ : PatientQueue).addPatient
          "Carol" false 12).ret = false
    ∧ (⟨[PatientQueue.new 0 2, ⟨[⟨"Alice", false, 10⟩], [⟨"Bob", true, 11⟩], 2, 1⟩], 2⟩
          : HospitalSystem).addPatient ⟨[some 1], "Carol", [some 0], 12⟩
      = some
          { ret := (),
            state := ⟨[PatientQueue.new 0 2,
                       ⟨[⟨"Alice", false, 10⟩], [⟨"Bob", true, 11⟩], 2, 1⟩], 2⟩,
            out := ["Enter specialization (1-1): ", "Enter patient name: ",
                    "Enter status (0 for regular, 1 for urgent): ",
                    "Sorry, we can't add more patients for specialization 1.\n\n",
                    "Patient added successfully.\n\n"] } := by
  refine ⟨rfl, by decide, by decide, by decide⟩

/-- C8: for every `int` N >= 1 for which N + 1 is still an `int`, the
constructor builds a `HospitalSystem` with N categories, and that system
accepts a category id exactly when 1 <= id <= N, so 0, every negative id and
every id above N are invalid.  In every state the reading loop of `addPatient`
and `getNextPatient` only lets a valid id through, and an invalid id typed
first is skipped: the state the call leaves is the one it leaves without that
id.  A call that returns indexes the vector at the accepted valid id, which is
in range, and leaves the queue at every other index, so at every invalid id
and at the dummy index 0, as it was; the vector keeps its size. -/
theorem isValidSpecialization_range (numSpecializations maxQueueSize : Int)
    (hN : 1 ≤ numSpecializations) (hint : numSpecializations < 2 ^ 31 - 1) (id : Int) :
    (∃ h : HospitalSystem, new numSpecializations maxQueueSize = .ok h)
    ∧ (∀ h : HospitalSystem, new numSpecializations maxQueueSize = .ok h →
        (h.isValidSpecialization id = true ↔ 1 ≤ id ∧ id ≤ numSpecializations)
        ∧ h.isValidSpecialization 0 = false
        ∧ (h.specializations.length : Int) = numSpecializations + 1)
    ∧ (∀ (h : HospitalSystem) (reads : List (Option Int)) (v : Int) (prompts : List String),
        h.readSpecialization reads = some (v, prompts) → h.isValidSpecialization v = true)
    ∧ (∀ (h : HospitalSystem) (rest : List (Option Int)) (name : String)
          (statusReads : List (Option Int)) (now : Int),
        h.isValidSpecialization id = false →
        (h.addPatient ⟨some id :: rest, name, statusReads, now⟩).map (fun r => r.state)
          = (h.addPatient ⟨rest, name, statusReads, now⟩).map (fun r => r.state))
    ∧ (∀ (fmt : Int → String) (h : HospitalSystem) (rest : List (Option Int)),
        h.isValidSpecialization id = false →
        (getNextPatient fmt h (some id :: rest)).map (fun r => r.state)
          = (getNextPatient fmt h rest).map (fun r => r.state))
    ∧ (∀ (h : HospitalSystem) (inp : AddInput) (r : Step HospitalSystem Unit),
        h.addPatient inp = some r →
        ∃ (v : Int) (prompts : List String),
          h.readSpecialization inp.specializationReads = some (v, prompts)
          ∧ h.isValidSpecialization v = true
          ∧ (∃ q, h.specializations[v.toNat]? = some q)
          ∧ r.state.maxQueueSize = h.maxQueueSize
          ∧ r.state.specializations.length = h.specializations.length
          ∧ (∀ i : Nat, (i : Int) ≠ v →
              r.state.specializations[i]? = h.specializations[i]?)
          ∧ (∀ i : Nat, h.isValidSpecialization (i : Int) = false →
              r.state.specializations[i]? = h.specializations[i]?))
    ∧ (∀ (fmt : Int → String) (h : HospitalSystem) (reads : List (Option Int))
          (r : Step HospitalSystem Unit),
        getNextPatient fmt h reads = some r →
        ∃ (v : Int) (prompts : List String),
          h.readSpecialization reads = some (v, prompts)
          ∧ h.isValidSpecialization v = true
          ∧ (∃ q, h.specializations[v.toNat]? = some q)
          ∧ r.state.maxQueueSize = h.maxQueueSize
          ∧ r.state.specializations.length = h.specializations.length
          ∧ (∀ i : Nat, (i : Int) ≠ v →
              r.state.specializations[i]? = h.specializations[i]?)
          ∧ (∀ i : Nat, h.isValidSpecialization (i : Int) = false →
              r.state.specializations[i]? = h.specializations[i]?)) := by
  have hnew := new_of_int_range numSpecializations maxQueueSize (by omega) hint
  refine ⟨⟨_, hnew⟩, ?_, ?_, ?_, ?_, ?_, ?_⟩
  · intro h hh
    rw [hnew] at hh
    simp only [Except.ok.injEq] at hh
    subst hh
    have hcast := Int.toNat_of_nonneg (by omega : 0 ≤ numSpecializations)
    simp only [isValidSpecialization, newQueues_length, Bool.and_eq_true, decide_eq_true_eq]
    refine ⟨?_, ?_, ?_⟩
    · constructor
      · rintro ⟨h1, h2⟩
        push_cast at h2
        omega
      · rintro ⟨h1, h2⟩
        push_cast
        omega
    · simp
    · push_cast
      omega
  · intro h reads v prompts hr
    exact readSpecialization_valid h reads v prompts hr
  · intro h rest name statusReads now hx
    simp only [addPatient, readSpecialization_skip h id rest hx]
    cases h.readSpecialization rest with
    | none => rfl
    | some r =>
      simp only [Option.map_some']
      split <;> [rfl; skip]
      split <;> [rfl; skip]
      split <;> rfl
  · intro fmt h rest hx
    simp only [getNextPatient, readSpecialization_skip h id rest hx]
    cases h.readSpecialization rest with
    | none => rfl
    | some r =>
      simp only [Option.map_some']
      split <;> [rfl; skip]
      split <;> rfl
  · intro h inp r hr
    obtain ⟨v, prompts, h1, h2, h3, h4, h5⟩ := addPatient_frame h inp r hr
    refine ⟨v, prompts, h1, h2, valid_index_in_range h v h2, h3, h4, h5, ?_⟩
    intro i hi
    exact h5 i (fun heq => by rw [heq, h2] at hi; exact absurd hi (by decide))
  · intro fmt h reads r hr
    obtain ⟨v, prompts, h1, h2, h3, h4, h5⟩ := getNextPatient_frame fmt h reads r hr
    refine ⟨v, prompts, h1, h2, valid_index_in_range h v h2, h3, h4, h5, ?_⟩
    intro i hi
    exact h5 i (fun heq => by rw [heq, h2] at hi; exact absurd hi (by decide))

/-- Witness of C8: three categories are built; ids 1 and 3 are accepted, 0, -1
and 4 are not, and no registry is built for the largest `int`. -/
theorem isValidSpecialization_range_witness :
    ((⟨newQueues 3 5, 5⟩ : HospitalSystem).isValidSpecialization 3 = true
        ↔ (1 : Int) ≤ 3 ∧ (3 : Int) ≤ 3)
    ∧ new 3 5 = .ok ⟨newQueues 3 5, 5⟩
    ∧ (⟨newQueues 3 5, 5⟩ : HospitalSystem).isValidSpecialization 1 = true
    ∧ (⟨newQueues 3 5, 5⟩ : HospitalSystem).isValidSpecialization 0 = false
    ∧ (⟨newQueues 3 5, 5⟩ : HospitalSystem).isValidSpecialization (-1) = false
    ∧ (⟨newQueues 3 5, 5⟩ : HospitalSystem).isValidSpecialization 4 = false
    ∧ new (2 ^ 31 - 1) 5 = .error .signedOverflow
    ∧ new (-2) 5 = .error .lengthError :=
  ⟨((isValidSpecialization_range 3 5 (by decide) (by decide) 3).2.1 ⟨newQueues 3 5, 5⟩ rfl).1,
   rfl, by decide, by decide, by decide, by decide, rfl, rfl⟩

end HospitalSystem

end Hospital
